import Mathlib

/-!
Verification of the spaced-repetition flashcard scheduler in app.py.

The program keeps four named lists of cards (hard, difficult, easy, unknown),
merges new example sentences from a source file into the unknown list,
schedules the next due card by a fixed priority scan, and moves cards
between lists stamping a new review time.  Timestamps are modelled as
integer seconds since the epoch; one minute is 60 seconds.
-/

namespace App

/-- The four list names, LISTS in app.py. -/
inductive ListName where
  | hard
  | difficult
  | easy
  | unknown
deriving DecidableEq, Repr

/-- LISTS, the fixed priority order of the four lists. -/
def LISTS : List ListName :=
  [ListName.hard, ListName.difficult, ListName.easy, ListName.unknown]

/-- REPEAT_INTERVALS in app.py: review interval in minutes per destination list. -/
def REPEAT_INTERVALS : ListName → Int
  | ListName.difficult => 5
  | ListName.hard => 1
  | ListName.easy => 120
  | ListName.unknown => 1

/-- One source example as found in the input JSON. -/
structure Example where
  sentence : String
  romaji : String
  english : String
  romaji_meaning : String
deriving DecidableEq, Repr

/-- One word group of the input JSON: a word with its examples. -/
structure WordGroup where
  word : String
  examples : List Example
deriving DecidableEq, Repr

/-- A flashcard: a flattened example plus root word and review timestamp. -/
structure Card where
  sentence : String
  romaji : String
  english : String
  romaji_meaning : String
  root_word : String
  next_review : Int
deriving DecidableEq, Repr

/-- The card built from an example in add_new_examples_to_lists:
example.copy() plus root_word and next_review fields. -/
def Card.ofExample (e : Example) (root_word : String) (now : Int) : Card :=
  { sentence := e.sentence
    romaji := e.romaji
    english := e.english
    romaji_meaning := e.romaji_meaning
    root_word := root_word
    next_review := now }

/-- The example part of a card (the four copied fields). -/
def Card.toExample (c : Card) : Example :=
  { sentence := c.sentence
    romaji := c.romaji
    english := c.english
    romaji_meaning := c.romaji_meaning }

/-- The in-memory lists mapping: one sequence of cards per list name. -/
structure Lists where
  hard : List Card
  difficult : List Card
  easy : List Card
  unknown : List Card
deriving DecidableEq, Repr

/-- Dictionary read lists[name]. -/
def Lists.get (ls : Lists) : ListName → List Card
  | ListName.hard => ls.hard
  | ListName.difficult => ls.difficult
  | ListName.easy => ls.easy
  | ListName.unknown => ls.unknown

/-- Dictionary write lists[name] = v. -/
def Lists.set (ls : Lists) : ListName → List Card → Lists
  | ListName.hard, v => { ls with hard := v }
  | ListName.difficult, v => { ls with difficult := v }
  | ListName.easy, v => { ls with easy := v }
  | ListName.unknown, v => { ls with unknown := v }

/-- All cards of the four lists, concatenated in LISTS order. -/
def allCards (ls : Lists) : List Card :=
  ls.hard ++ ls.difficult ++ ls.easy ++ ls.unknown

/-- The sentences currently tracked across all four lists, in scan order.
This models the all_tracked_sentences set of add_new_examples_to_lists;
only membership in it is ever used. -/
def allTrackedSentences (ls : Lists) : List String :=
  (allCards ls).map Card.sentence

/-- get_next_card's scan over a tail of LISTS: for each name in order,
return the first entry of that list with next_review less than or equal
to now, paired with the list name. -/
def get_next_card_from (now : Int) (ls : Lists) : List ListName → Option (Card × ListName)
  | [] => none
  | n :: rest =>
    match (ls.get n).find? (fun entry => decide (entry.next_review ≤ now)) with
    | some entry => some (entry, n)
    | none => get_next_card_from now ls rest

/-- get_next_card in app.py.  Python returns the pair (None, None) when
nothing is due; that sentinel is modelled as none. -/
def get_next_card (now : Int) (ls : Lists) : Option (Card × ListName) :=
  get_next_card_from now ls LISTS

/-- Result of move_card: the updated lists mapping, the mutated card
(card_entry after its next_review was reassigned), and the save_list
calls performed, in order, as (list name, data written) pairs. -/
structure MoveResult where
  lists : Lists
  card : Card
  saves : List (ListName × List Card)
deriving DecidableEq, Repr

/-- move_card in app.py: filter every entry with the card's sentence out of
from_list, stamp next_review = now + interval minutes for to_list, append
the card to to_list, then save all four lists. -/
def move_card (now : Int) (card_entry : Card) (from_list to_list : ListName)
    (ls : Lists) : MoveResult :=
  let ls1 := ls.set from_list
    ((ls.get from_list).filter fun w => decide (w.sentence ≠ card_entry.sentence))
  let interval := REPEAT_INTERVALS to_list
  let next_review := now + interval * 60
  let card1 := { card_entry with next_review := next_review }
  let ls2 := ls1.set to_list (ls1.get to_list ++ [card1])
  { lists := ls2
    card := card1
    saves := LISTS.map fun l => (l, ls2.get l) }

/-- Loop state of add_new_examples_to_lists: the tracked-sentence set,
the unknown list being extended, and the changes_made flag. -/
structure MergeState where
  tracked : List String
  unknown : List Card
  changes_made : Bool
deriving DecidableEq, Repr

/-- The body of the inner loop of add_new_examples_to_lists for one example. -/
def addExampleStep (now : Int) (root_word : String) (st : MergeState)
    (ex : Example) : MergeState :=
  if ex.sentence ∈ st.tracked then st
  else
    { tracked := ex.sentence :: st.tracked
      unknown := st.unknown ++ [Card.ofExample ex root_word now]
      changes_made := true }

/-- The body of the outer loop of add_new_examples_to_lists for one word group. -/
def addGroupStep (now : Int) (st : MergeState) (wg : WordGroup) : MergeState :=
  wg.examples.foldl (addExampleStep now wg.word) st

/-- add_new_examples_to_lists in app.py.  Returns the updated lists mapping
together with the save_list calls performed (the unknown list is written
exactly when changes_made is true). -/
def add_new_examples_to_lists (now : Int) (input_data : List WordGroup)
    (ls : Lists) : Lists × List (ListName × List Card) :=
  let st0 : MergeState :=
    { tracked := allTrackedSentences ls
      unknown := ls.unknown
      changes_made := false }
  let stF := input_data.foldl (addGroupStep now) st0
  let ls1 := { ls with unknown := stF.unknown }
  (ls1, if stF.changes_made then [(ListName.unknown, stF.unknown)] else [])

/-- The source input flattened to (root word, example) pairs in input order,
as traversed by the nested loops of add_new_examples_to_lists. -/
def flattenInput : List WordGroup → List (String × Example)
  | [] => []
  | wg :: rest => (wg.examples.map fun e => (wg.word, e)) ++ flattenInput rest

/-- Modelled from the spec contract of the merge step: walking the flattened
source in input order, every example whose sentence is not already present
in any of the four lists (including cards appended by this same run, which
land in the unknown list immediately) yields a new card with the example's
fields, the group's root word and next_review = now.  The present argument
is the set of sentences currently in the four lists. -/
def specNewCards (now : Int) (present : List String) :
    List (String × Example) → List Card
  | [] => []
  | (root_word, e) :: rest =>
    if e.sentence ∈ present then specNewCards now present rest
    else Card.ofExample e root_word now :: specNewCards now (e.sentence :: present) rest

/-- Number of cards in L carrying sentence s. -/
def occ (s : String) (L : List Card) : Nat :=
  L.countP fun w => decide (w.sentence = s)

/-- The uniqueness invariant: no sentence appears twice across the four
lists combined. -/
def UniqueSentences (ls : Lists) : Prop :=
  ((allCards ls).map Card.sentence).Nodup

/-- Position of a list name in the priority order LISTS. -/
def priority : ListName → Nat
  | ListName.hard => 0
  | ListName.difficult => 1
  | ListName.easy => 2
  | ListName.unknown => 3

/-- One state change of the running app, as the main loop performs it:
either a merge of some source input, or a move of a card that the app
holds together with the name of the list it currently sits in (the pair
produced by get_next_card and kept in session state). -/
inductive AppStep : Lists → Lists → Prop where
  | merge (now : Int) (input_data : List WordGroup) (ls : Lists) :
      AppStep ls (add_new_examples_to_lists now input_data ls).1
  | move (now : Int) (c : Card) (from_list to_list : ListName) (ls : Lists)
      (hc : c ∈ ls.get from_list) :
      AppStep ls (move_card now c from_list to_list ls).lists

/-- A JSON value, as far as this program's files need: the json module
round-trips these structures between Python values and file text. -/
inductive Json where
  | str (s : String)
  | num (n : Int)
  | arr (xs : List Json)
  | obj (fields : List (String × Json))

/-- The JSON object json.dump writes for one card. -/
def encodeCard (c : Card) : Json :=
  Json.obj
    [("sentence", Json.str c.sentence),
     ("romaji", Json.str c.romaji),
     ("english", Json.str c.english),
     ("romaji_meaning", Json.str c.romaji_meaning),
     ("root_word", Json.str c.root_word),
     ("next_review", Json.num c.next_review)]

/-- The JSON array json.dump writes for one list of cards. -/
def encodeCards (cs : List Card) : Json :=
  Json.arr (cs.map encodeCard)

/-- Read a string field. -/
def asStr : Option Json → Option String
  | some (Json.str s) => some s
  | _ => none

/-- Read a numeric field. -/
def asNum : Option Json → Option Int
  | some (Json.num n) => some n
  | _ => none

/-- Recover a card from its JSON object, reading each field by key as the
program does with entry["sentence"] and the rest. -/
def decodeCard : Json → Option Card
  | Json.obj fields => do
    let sentence ← asStr (fields.lookup "sentence")
    let romaji ← asStr (fields.lookup "romaji")
    let english ← asStr (fields.lookup "english")
    let romaji_meaning ← asStr (fields.lookup "romaji_meaning")
    let root_word ← asStr (fields.lookup "root_word")
    let next_review ← asNum (fields.lookup "next_review")
    pure { sentence := sentence
           romaji := romaji
           english := english
           romaji_meaning := romaji_meaning
           root_word := root_word
           next_review := next_review }
  | _ => none

/-- Recover a list of cards from a JSON array. -/
def decodeCards : Json → Option (List Card)
  | Json.arr xs => xs.mapM decodeCard
  | _ => none

/-- The data directory: one optional JSON file per list name. -/
def Store : Type :=
  ListName → Option Json

/-- save_list in app.py: overwrite the list's file with the JSON of data. -/
def save_list (store : Store) (list_name : ListName) (data : List Card) : Store :=
  fun n => if n = list_name then some (encodeCards data) else store n

/-- load_list in app.py: parse the list's file when present, else return the
empty list; a file whose JSON does not decode is a fatal parse error,
modelled as none. -/
def load_list (store : Store) (list_name : ListName) : Option (List Card) :=
  match store list_name with
  | none => some []
  | some j => decodeCards j

/-! Concrete fixtures used to evaluate the theorems on explicit inputs. -/

/-- A source example. -/
def exS1 : Example := ⟨"sX", "rX1", "eX1", "mX1"⟩

/-- A second source example with the same sentence but different fields. -/
def exS2 : Example := ⟨"sX", "rX2", "eX2", "mX2"⟩

/-- A source input carrying the same sentence under two word groups. -/
def inpDup : List WordGroup := [⟨"wX1", [exS1]⟩, ⟨"wX2", [exS2]⟩]

/-- A source input with one fresh example. -/
def inpA : List WordGroup := [⟨"wNew", [⟨"sNew", "rN", "eN", "mN"⟩]⟩]

/-- A card with sentence sA. -/
def cA : Card := ⟨"sA", "rA", "eA", "mA", "wA", 0⟩

/-- A different card that carries the same sentence as cA. -/
def cB : Card := ⟨"sA", "rB", "eB", "mB", "wB", 0⟩

/-- A third card carrying the sentence of cA. -/
def cC : Card := ⟨"sA", "rC", "eC", "mC", "wC", 0⟩

/-- A card in the easy list, due for ten seconds at time 100. -/
def cEasyW : Card := ⟨"sE", "rE", "eE", "mE", "wE", 90⟩

/-- A card in the unknown list, due for a whole hour at time 100. -/
def cUnkW : Card := ⟨"sU", "rU", "eU", "mU", "wU", -3500⟩

/-- Four empty lists. -/
def lsEmpty : Lists := ⟨[], [], [], []⟩

/-- Lists whose unknown list holds just cA. -/
def lsOne : Lists := ⟨[], [], [], [cA]⟩

/-- Lists whose unknown list holds two cards with the same sentence. -/
def lsDup2 : Lists := ⟨[], [], [], [cA, cB]⟩

/-- Lists whose unknown list holds three cards with the same sentence. -/
def lsDup3 : Lists := ⟨[], [], [], [cA, cB, cC]⟩

/-- Lists with a slightly overdue easy card and a badly overdue unknown card. -/
def lsSched : Lists := ⟨[], [], [cEasyW], [cUnkW]⟩

/-- The card a merge at time 5 builds from the first occurrence of sX in inpDup. -/
def cX1 : Card := ⟨"sX", "rX1", "eX1", "mX1", "wX1", 5⟩

/-! Basic lemmas about the lists mapping. -/

theorem get_set_self (ls : Lists) (n : ListName) (v : List Card) :
    (ls.set n v).get n = v := by
  cases n <;> rfl

theorem get_set_ne (ls : Lists) (m n : ListName) (v : List Card) (h : m ≠ n) :
    (ls.set n v).get m = ls.get m := by
  cases n <;> cases m <;> simp_all [Lists.set, Lists.get]

theorem set_get_self (ls : Lists) (n : ListName) : ls.set n (ls.get n) = ls := by
  cases n <;> rfl

theorem get_subset_allCards {w : Card} {ls : Lists} {n : ListName}
    (h : w ∈ ls.get n) : w ∈ allCards ls := by
  cases n <;> simp [Lists.get] at h <;> simp [allCards, h]

theorem mem_allCards_set {w : Card} (ls : Lists) (n : ListName) (v : List Card)
    (h : w ∈ allCards (ls.set n v)) : w ∈ v ∨ w ∈ allCards ls := by
  cases n <;> simp [Lists.set, allCards] at h ⊢ <;> tauto

/-! Counting occurrences of a sentence. -/

theorem occ_append (s : String) (A B : List Card) :
    occ s (A ++ B) = occ s A + occ s B := by
  simp [occ, List.countP_append]

theorem occ_cons (s : String) (c : Card) (L : List Card) :
    occ s (c :: L) = occ s L + (if c.sentence = s then 1 else 0) := by
  simp [occ, List.countP_cons]

theorem occ_singleton (s : String) (c : Card) :
    occ s [c] = if c.sentence = s then 1 else 0 := by
  simp [occ, List.countP_cons]

theorem occ_eq_zero_of_not_mem {s : String} {L : List Card}
    (h : s ∉ L.map Card.sentence) : occ s L = 0 := by
  rw [occ, List.countP_eq_zero]
  intro a ha
  simp only [decide_eq_true_eq]
  intro hs
  exact h (List.mem_map.mpr ⟨a, ha, hs⟩)

theorem one_le_occ_of_mem {c : Card} {L : List Card} (h : c ∈ L) :
    1 ≤ occ c.sentence L := by
  rw [occ]
  exact List.countP_pos_iff.mpr ⟨c, h, by simp⟩

theorem occ_filter_self (t : String) (L : List Card) :
    occ t (L.filter fun w => decide (w.sentence ≠ t)) = 0 := by
  rw [occ, List.countP_eq_zero]
  intro a ha
  have h2 := (List.mem_filter.mp ha).2
  simp only [ne_eq, decide_not, Bool.not_eq_true, decide_eq_false_iff_not] at h2 ⊢
  simpa using h2

theorem occ_filter_ne (s t : String) (L : List Card) (h : s ≠ t) :
    occ s (L.filter fun w => decide (w.sentence ≠ t)) = occ s L := by
  rw [occ, occ, List.countP_filter]
  apply List.countP_congr
  intro a _
  by_cases hs : a.sentence = s
  · simp [hs, h]
  · simp [hs]

theorem length_filter_add_occ (t : String) (L : List Card) :
    (L.filter fun w => decide (w.sentence ≠ t)).length + occ t L = L.length := by
  induction L with
  | nil => rfl
  | cons c L ih =>
    rw [occ_cons, List.filter_cons]
    by_cases h : c.sentence = t
    · rw [if_pos h, if_neg (by simp [h])]
      simp only [List.length_cons]
      omega
    · rw [if_neg h, if_pos (by simp [h])]
      simp only [List.length_cons]
      omega

theorem occ_allCards (s : String) (ls : Lists) :
    occ s (allCards ls) =
      occ s ls.hard + occ s ls.difficult + occ s ls.easy + occ s ls.unknown := by
  simp [allCards, occ_append]
  omega

theorem occ_allCards_set (s : String) (ls : Lists) (n : ListName) (v : List Card) :
    occ s (allCards (ls.set n v)) + occ s (ls.get n) =
      occ s (allCards ls) + occ s v := by
  cases n <;> simp [Lists.set, Lists.get, occ_allCards] <;> omega

theorem occ_get_le (s : String) (ls : Lists) (n : ListName) :
    occ s (ls.get n) ≤ occ s (allCards ls) := by
  cases n <;> simp [Lists.get, occ_allCards] <;> omega

/-! The uniqueness invariant restated through occurrence counts. -/

theorem nodup_map_sentence_iff (L : List Card) :
    (L.map Card.sentence).Nodup ↔ ∀ s, occ s L ≤ 1 := by
  induction L with
  | nil => simp [occ]
  | cons c L ih =>
    simp only [List.map_cons, List.nodup_cons, ih]
    constructor
    · rintro ⟨hnotin, hle⟩ s
      rw [occ_cons]
      by_cases hs : c.sentence = s
      · rw [if_pos hs]
        have : occ s L = 0 := occ_eq_zero_of_not_mem (hs ▸ hnotin)
        omega
      · rw [if_neg hs]
        have := hle s
        omega
    · intro h
      constructor
      · intro hmem
        have h1 := h c.sentence
        rw [occ_cons, if_pos rfl] at h1
        obtain ⟨w, hw, hws⟩ := List.mem_map.mp hmem
        have h2 : 1 ≤ occ c.sentence L := by
          rw [occ]
          exact List.countP_pos_iff.mpr ⟨w, hw, by simp [hws]⟩
        omega
      · intro s
        have h1 := h s
        rw [occ_cons] at h1
        omega

theorem uniqueSentences_iff (ls : Lists) :
    UniqueSentences ls ↔ ∀ s, occ s (allCards ls) ≤ 1 :=
  nodup_map_sentence_iff (allCards ls)

/-! Splitting a successful linear search. -/

theorem find?_split {p : Card → Bool} {l : List Card} {a : Card}
    (h : l.find? p = some a) :
    ∃ l1 l2, l = l1 ++ a :: l2 ∧ ∀ x ∈ l1, p x = false := by
  induction l with
  | nil => simp at h
  | cons x xs ih =>
    by_cases hx : p x
    · rw [List.find?_cons_of_pos _ hx] at h
      cases h
      exact ⟨[], xs, rfl, by simp⟩
    · rw [List.find?_cons_of_neg _ (by simpa using hx)] at h
      obtain ⟨l1, l2, heq, hall⟩ := ih h
      refine ⟨x :: l1, l2, by rw [heq, List.cons_append], ?_⟩
      intro y hy
      rcases List.mem_cons.mp hy with h1 | h1
      · subst h1
        simpa using hx
      · exact hall y h1

/-! Characterising the merge step: the nested loops of
add_new_examples_to_lists walk the flattened input and behave as
specNewCards describes. -/

theorem foldl_addGroupStep_eq (now : Int) (input_data : List WordGroup) (st : MergeState) :
    input_data.foldl (addGroupStep now) st =
      (flattenInput input_data).foldl (fun st p => addExampleStep now p.1 st p.2) st := by
  induction input_data generalizing st with
  | nil => rfl
  | cons wg rest ih =>
    rw [List.foldl_cons, flattenInput, List.foldl_append, ih, addGroupStep, List.foldl_map]

theorem foldl_pairs_unknown (now : Int) (pairs : List (String × Example)) (st : MergeState) :
    (pairs.foldl (fun st p => addExampleStep now p.1 st p.2) st).unknown =
      st.unknown ++ specNewCards now st.tracked pairs := by
  induction pairs generalizing st with
  | nil => simp [specNewCards]
  | cons p rest ih =>
    rcases p with ⟨root_word, e⟩
    rw [List.foldl_cons, specNewCards]
    by_cases h : e.sentence ∈ st.tracked
    · rw [if_pos h]
      have hstep : addExampleStep now root_word st e = st := by
        rw [addExampleStep, if_pos h]
      rw [hstep, ih]
    · rw [if_neg h]
      have hstep : addExampleStep now root_word st e =
          ⟨e.sentence :: st.tracked, st.unknown ++ [Card.ofExample e root_word now], true⟩ := by
        rw [addExampleStep, if_neg h]
      rw [hstep, ih]
      simp

theorem foldl_pairs_changes (now : Int) (pairs : List (String × Example)) (st : MergeState) :
    (pairs.foldl (fun st p => addExampleStep now p.1 st p.2) st).changes_made =
      (st.changes_made || !(specNewCards now st.tracked pairs).isEmpty) := by
  induction pairs generalizing st with
  | nil => simp [specNewCards]
  | cons p rest ih =>
    rcases p with ⟨root_word, e⟩
    rw [List.foldl_cons, specNewCards]
    by_cases h : e.sentence ∈ st.tracked
    · rw [if_pos h]
      have hstep : addExampleStep now root_word st e = st := by
        rw [addExampleStep, if_pos h]
      rw [hstep, ih]
    · rw [if_neg h]
      have hstep : addExampleStep now root_word st e =
          ⟨e.sentence :: st.tracked, st.unknown ++ [Card.ofExample e root_word now], true⟩ := by
        rw [addExampleStep, if_neg h]
      rw [hstep, ih]
      simp

theorem add_new_examples_eq (now : Int) (input_data : List WordGroup) (ls : Lists) :
    add_new_examples_to_lists now input_data ls =
      ({ ls with unknown :=
          ls.unknown ++ specNewCards now (allTrackedSentences ls) (flattenInput input_data) },
       if specNewCards now (allTrackedSentences ls) (flattenInput input_data) = [] then []
       else [(ListName.unknown,
          ls.unknown ++ specNewCards now (allTrackedSentences ls) (flattenInput input_data))]) := by
  rw [add_new_examples_to_lists, foldl_addGroupStep_eq]
  have hu := foldl_pairs_unknown now (flattenInput input_data)
    ⟨allTrackedSentences ls, ls.unknown, false⟩
  have hc := foldl_pairs_changes now (flattenInput input_data)
    ⟨allTrackedSentences ls, ls.unknown, false⟩
  simp only at hu hc
  rw [Prod.mk.injEq]
  constructor
  · rw [hu]
  · rw [hc, hu]
    by_cases hn : specNewCards now (allTrackedSentences ls) (flattenInput input_data) = []
    · simp [hn]
    · obtain ⟨a, t, ht⟩ := List.exists_cons_of_ne_nil hn
      rw [ht]
      simp

theorem specNewCards_covers (now : Int) (pairs : List (String × Example))
    (present : List String) :
    ∀ p ∈ pairs, p.2.sentence ∈ present ∨
      p.2.sentence ∈ (specNewCards now present pairs).map Card.sentence := by
  induction pairs generalizing present with
  | nil => simp
  | cons q rest ih =>
    rcases q with ⟨root_word, e⟩
    intro p hp
    rw [specNewCards]
    by_cases h : e.sentence ∈ present
    · rw [if_pos h]
      rcases List.mem_cons.mp hp with rfl | hp2
      · exact Or.inl h
      · exact ih present p hp2
    · rw [if_neg h]
      rcases List.mem_cons.mp hp with rfl | hp2
      · exact Or.inr (by simp [Card.ofExample])
      · rcases ih (e.sentence :: present) p hp2 with h1 | h1
        · rcases List.mem_cons.mp h1 with h2 | h2
          · exact Or.inr (by simp [Card.ofExample, h2])
          · exact Or.inl h2
        · exact Or.inr (by simp [h1])

theorem specNewCards_eq_nil (now : Int) (pairs : List (String × Example))
    (present : List String) (h : ∀ p ∈ pairs, p.2.sentence ∈ present) :
    specNewCards now present pairs = [] := by
  induction pairs with
  | nil => rfl
  | cons q rest ih =>
    rcases q with ⟨root_word, e⟩
    rw [specNewCards, if_pos (h (root_word, e) (List.mem_cons_self _ _))]
    exact ih fun p hp => h p (List.mem_cons_of_mem _ hp)

theorem specNewCards_nodup_not_present (now : Int) (pairs : List (String × Example))
    (present : List String) :
    (∀ c ∈ specNewCards now present pairs, c.sentence ∉ present) ∧
      ((specNewCards now present pairs).map Card.sentence).Nodup := by
  induction pairs generalizing present with
  | nil => simp [specNewCards]
  | cons q rest ih =>
    rcases q with ⟨root_word, e⟩
    rw [specNewCards]
    by_cases h : e.sentence ∈ present
    · rw [if_pos h]
      exact ih present
    · rw [if_neg h]
      obtain ⟨ih1, ih2⟩ := ih (e.sentence :: present)
      constructor
      · intro c hc
        rcases List.mem_cons.mp hc with rfl | hc2
        · simpa [Card.ofExample] using h
        · intro hcp
          exact ih1 c hc2 (List.mem_cons_of_mem _ hcp)
      · rw [List.map_cons, List.nodup_cons]
        refine ⟨?_, ih2⟩
        intro hmem
        obtain ⟨w, hw, hws⟩ := List.mem_map.mp hmem
        exact ih1 w hw (by rw [hws]; simp [Card.ofExample])

theorem specNewCards_first_occurrence (now : Int) (pairs : List (String × Example))
    (present : List String) :
    ∀ c ∈ specNewCards now present pairs,
      pairs.find? (fun p => decide (p.2.sentence = c.sentence)) =
        some (c.root_word, Card.toExample c) ∧ c.next_review = now := by
  induction pairs generalizing present with
  | nil => simp [specNewCards]
  | cons q rest ih =>
    rcases q with ⟨root_word, e⟩
    intro c hc
    rw [specNewCards] at hc
    by_cases h : e.sentence ∈ present
    · rw [if_pos h] at hc
      have hnp := (specNewCards_nodup_not_present now rest present).1 c hc
      have hne : ¬ e.sentence = c.sentence := fun heq => hnp (heq ▸ h)
      rw [List.find?_cons_of_neg _ (by simpa using hne)]
      exact ih present c hc
    · rw [if_neg h] at hc
      rcases List.mem_cons.mp hc with rfl | hc2
      · rw [List.find?_cons_of_pos _ (by simp [Card.ofExample])]
        exact ⟨rfl, rfl⟩
      · have hnp := (specNewCards_nodup_not_present now rest (e.sentence :: present)).1 c hc2
        have hne : ¬ e.sentence = c.sentence := fun heq => hnp (by rw [← heq]; simp)
        rw [List.find?_cons_of_neg _ (by simpa using hne)]
        exact ih (e.sentence :: present) c hc2

theorem mem_allTracked_append_unknown (ls : Lists) (N : List Card) (s : String) :
    s ∈ allTrackedSentences { ls with unknown := ls.unknown ++ N } ↔
      s ∈ allTrackedSentences ls ∨ s ∈ N.map Card.sentence := by
  simp only [allTrackedSentences, allCards, List.map_append, List.mem_append]
  tauto

/-! JSON round-trip helpers. -/

theorem decodeCard_encodeCard (c : Card) : decodeCard (encodeCard c) = some c := rfl

theorem mapM_decode_map_encode (cs : List Card) :
    (cs.map encodeCard).mapM decodeCard = some cs := by
  induction cs with
  | nil => rfl
  | cons c rest ih =>
    rw [List.map_cons, List.mapM_cons, decodeCard_encodeCard, ih]
    rfl

theorem decodeCards_encodeCards (cs : List Card) :
    decodeCards (encodeCards cs) = some cs := by
  rw [encodeCards, decodeCards, mapM_decode_map_encode]

/-- Claim C7: saving a list with save_list and loading it back with load_list
returns the same sequence of cards, field for field. -/
theorem save_list_load_list_roundtrip (store : Store) (list_name : ListName)
    (data : List Card) :
    load_list (save_list store list_name data) list_name = some data := by
  simp [load_list, save_list, decodeCards_encodeCards]

/-- Claim C3: the merge step appends to the unknown list, in source input
order, exactly one card for every example whose sentence is not already
present in any of the four lists at the moment the example is examined
(earlier cards of the same run count, since they are appended at once), the
card carrying the example's fields, its group's root word and
next_review = now; the unknown list is written back if and only if at
least one card was added. -/
theorem add_new_examples_to_lists_spec (now : Int) (input_data : List WordGroup)
    (ls : Lists) :
    (add_new_examples_to_lists now input_data ls).1 =
      ls.set ListName.unknown
        (ls.get ListName.unknown ++
          specNewCards now (allTrackedSentences ls) (flattenInput input_data)) ∧
    (add_new_examples_to_lists now input_data ls).2 =
      (if specNewCards now (allTrackedSentences ls) (flattenInput input_data) = [] then []
       else [(ListName.unknown,
         ls.get ListName.unknown ++
           specNewCards now (allTrackedSentences ls) (flattenInput input_data))]) := by
  rw [add_new_examples_eq]
  exact ⟨rfl, rfl⟩

/-- Claim C5: merging the same source input a second time changes nothing,
and a merge never removes or updates an existing card: the three review
lists are untouched and the unknown list only grows at its end. -/
theorem add_new_examples_idempotent (now1 now2 : Int) (input_data : List WordGroup)
    (ls : Lists) :
    (add_new_examples_to_lists now2 input_data
        (add_new_examples_to_lists now1 input_data ls).1).1 =
      (add_new_examples_to_lists now1 input_data ls).1 ∧
    (add_new_examples_to_lists now1 input_data ls).1.hard = ls.hard ∧
    (add_new_examples_to_lists now1 input_data ls).1.difficult = ls.difficult ∧
    (add_new_examples_to_lists now1 input_data ls).1.easy = ls.easy ∧
    ∃ added, (add_new_examples_to_lists now1 input_data ls).1.unknown =
      ls.unknown ++ added := by
  rw [add_new_examples_eq now1 input_data ls]
  refine ⟨?_, rfl, rfl, rfl, ⟨_, rfl⟩⟩
  rw [add_new_examples_eq]
  have hnil : specNewCards now2
      (allTrackedSentences { ls with unknown := (ls.unknown ++
        specNewCards now1 (allTrackedSentences ls) (flattenInput input_data)) })
      (flattenInput input_data) = [] := by
    apply specNewCards_eq_nil
    intro p hp
    rw [mem_allTracked_append_unknown]
    exact specNewCards_covers now1 (flattenInput input_data) (allTrackedSentences ls) p hp
  rw [hnil]
  simp

/-- Claim C9: one merge run creates at most one card per sentence; its
fields come from the first occurrence of that sentence in the flattened
source input. -/
theorem merge_single_card_per_sentence (now : Int) (input_data : List WordGroup)
    (ls : Lists) :
    ((((add_new_examples_to_lists now input_data ls).1.unknown).drop
        ls.unknown.length).map Card.sentence).Nodup ∧
    ∀ c ∈ ((add_new_examples_to_lists now input_data ls).1.unknown).drop
        ls.unknown.length,
      (flattenInput input_data).find? (fun p => decide (p.2.sentence = c.sentence)) =
        some (c.root_word, Card.toExample c) := by
  rw [add_new_examples_eq]
  simp only
  rw [List.drop_left]
  exact ⟨(specNewCards_nodup_not_present now (flattenInput input_data)
      (allTrackedSentences ls)).2,
    fun c hc => (specNewCards_first_occurrence now (flattenInput input_data)
      (allTrackedSentences ls) c hc).1⟩

/-- Witness for C9 at a concrete input: the source inpDup carries the
sentence sX twice with different fields; the single created card matches
the first occurrence. -/
theorem merge_single_card_per_sentence_witness :
    (flattenInput inpDup).find? (fun p => decide (p.2.sentence = cX1.sentence)) =
      some (cX1.root_word, Card.toExample cX1) :=
  (merge_single_card_per_sentence 5 inpDup lsEmpty).2 cX1 (by decide)

/-! Shape of a move between two distinct lists. -/

theorem move_card_components (now : Int) (c : Card) (from_list to_list : ListName)
    (ls : Lists) (h : from_list ≠ to_list) :
    (move_card now c from_list to_list ls).lists.get from_list =
      (ls.get from_list).filter (fun w => decide (w.sentence ≠ c.sentence)) ∧
    (move_card now c from_list to_list ls).lists.get to_list =
      ls.get to_list ++ [(move_card now c from_list to_list ls).card] ∧
    ((move_card now c from_list to_list ls).lists.get from_list).length +
        ((move_card now c from_list to_list ls).lists.get to_list).length +
        occ c.sentence (ls.get from_list) =
      (ls.get from_list).length + (ls.get to_list).length + 1 := by
  have hres : (move_card now c from_list to_list ls).lists =
      (ls.set from_list
          ((ls.get from_list).filter fun w => decide (w.sentence ≠ c.sentence))).set
        to_list
        ((ls.set from_list
            ((ls.get from_list).filter fun w => decide (w.sentence ≠ c.sentence))).get
              to_list ++
          [{ c with next_review := now + REPEAT_INTERVALS to_list * 60 }]) := rfl
  have hcard : (move_card now c from_list to_list ls).card =
      { c with next_review := now + REPEAT_INTERVALS to_list * 60 } := rfl
  have hfrom : (move_card now c from_list to_list ls).lists.get from_list =
      (ls.get from_list).filter (fun w => decide (w.sentence ≠ c.sentence)) := by
    rw [hres, get_set_ne _ _ _ _ h, get_set_self]
  have hto : (move_card now c from_list to_list ls).lists.get to_list =
      ls.get to_list ++ [(move_card now c from_list to_list ls).card] := by
    rw [hres, get_set_self, get_set_ne _ _ _ _ (Ne.symm h), hcard]
  refine ⟨hfrom, hto, ?_⟩
  rw [hfrom, hto]
  have hlen := length_filter_add_occ c.sentence (ls.get from_list)
  rw [List.length_append, List.length_singleton]
  omega

/-- Claim C10: when several entries of from_list carry the moved card's
sentence, move_card removes every one of them and appends exactly one
card to to_list, so the combined length of the two lists drops by one
less than the number of matching entries. -/
theorem move_card_removes_all_matches (now : Int) (c : Card)
    (from_list to_list : ListName) (ls : Lists) (h : from_list ≠ to_list) :
    (move_card now c from_list to_list ls).lists.get from_list =
      (ls.get from_list).filter (fun w => decide (w.sentence ≠ c.sentence)) ∧
    (move_card now c from_list to_list ls).lists.get to_list =
      ls.get to_list ++ [(move_card now c from_list to_list ls).card] ∧
    ((move_card now c from_list to_list ls).lists.get from_list).length +
        ((move_card now c from_list to_list ls).lists.get to_list).length +
        occ c.sentence (ls.get from_list) =
      (ls.get from_list).length + (ls.get to_list).length + 1 :=
  move_card_components now c from_list to_list ls h

/-- Witness for C10: lsDup3 holds three cards with sentence sA in unknown;
moving cA out of unknown removes all three and appends one, so the
combined length drops from 3 to 1. -/
theorem move_card_removes_all_matches_witness :
    ListName.unknown ≠ ListName.hard ∧
    ((move_card 0 cA ListName.unknown ListName.hard lsDup3).lists.get
        ListName.unknown =
      (lsDup3.get ListName.unknown).filter (fun w => decide (w.sentence ≠ cA.sentence)) ∧
    (move_card 0 cA ListName.unknown ListName.hard lsDup3).lists.get ListName.hard =
      lsDup3.get ListName.hard ++
        [(move_card 0 cA ListName.unknown ListName.hard lsDup3).card] ∧
    ((move_card 0 cA ListName.unknown ListName.hard lsDup3).lists.get
          ListName.unknown).length +
        ((move_card 0 cA ListName.unknown ListName.hard lsDup3).lists.get
          ListName.hard).length +
        occ cA.sentence (lsDup3.get ListName.unknown) =
      (lsDup3.get ListName.unknown).length + (lsDup3.get ListName.hard).length + 1) :=
  ⟨by decide,
    move_card_removes_all_matches 0 cA ListName.unknown ListName.hard lsDup3 (by decide)⟩

/-- Claim C6: when no entry of from_list carries the card's sentence the
removal pass is a silent no-op (the function is total, so no error is
raised), from_list is left unchanged, and the card is still appended to
to_list with its freshly stamped review time. -/
theorem move_card_absent_noop (now : Int) (c : Card) (from_list to_list : ListName)
    (ls : Lists) (h : ∀ w ∈ ls.get from_list, w.sentence ≠ c.sentence) :
    (move_card now c from_list to_list ls).lists =
      ls.set to_list (ls.get to_list ++
        [{ c with next_review := now + REPEAT_INTERVALS to_list * 60 }]) := by
  have hfilter : (ls.get from_list).filter (fun w => decide (w.sentence ≠ c.sentence)) =
      ls.get from_list := by
    apply List.filter_eq_self.mpr
    intro a ha
    simpa using h a ha
  have hres : (move_card now c from_list to_list ls).lists =
      (ls.set from_list
          ((ls.get from_list).filter fun w => decide (w.sentence ≠ c.sentence))).set
        to_list
        ((ls.set from_list
            ((ls.get from_list).filter fun w => decide (w.sentence ≠ c.sentence))).get
              to_list ++
          [{ c with next_review := now + REPEAT_INTERVALS to_list * 60 }]) := rfl
  rw [hres, hfilter, set_get_self]

/-- Witness for C6: moving cB, whose sentence is absent from the empty hard
list of lsOne, out of hard and into easy. -/
theorem move_card_absent_noop_witness :
    (∀ w ∈ lsOne.get ListName.hard, w.sentence ≠ cB.sentence) ∧
    (move_card 0 cB ListName.hard ListName.easy lsOne).lists =
      lsOne.set ListName.easy (lsOne.get ListName.easy ++
        [{ cB with next_review := 0 + REPEAT_INTERVALS ListName.easy * 60 }]) :=
  ⟨by decide, move_card_absent_noop 0 cB ListName.hard ListName.easy lsOne (by decide)⟩

/-- Claim C2 counterexample: with two entries carrying the card's sentence
in from_list, the length of from_list drops by 2, not by 1, even though the
card is present. -/
theorem move_card_transition_counterexample :
    cA ∈ lsDup2.get ListName.unknown ∧
    (lsDup2.get ListName.unknown).length = 2 ∧
    ((move_card 0 cA ListName.unknown ListName.hard lsDup2).lists.get
      ListName.unknown).length = 0 := by
  decide

/-- Claim C2 (amended): when from_list and to_list differ and the card's
sentence occurs exactly once in from_list, move_card shortens from_list by
one, lengthens to_list by one, stamps the card's next_review to now plus
the destination interval (hard 1, difficult 5, easy 120, unknown 1
minutes), and persists all four lists unconditionally, in LISTS order. -/
theorem move_card_transition (now : Int) (c : Card) (from_list to_list : ListName)
    (ls : Lists) (hne : from_list ≠ to_list)
    (honce : occ c.sentence (ls.get from_list) = 1) :
    ((move_card now c from_list to_list ls).lists.get from_list).length + 1 =
      (ls.get from_list).length ∧
    ((move_card now c from_list to_list ls).lists.get to_list).length =
      (ls.get to_list).length + 1 ∧
    (move_card now c from_list to_list ls).card =
      { c with next_review := now + REPEAT_INTERVALS to_list * 60 } ∧
    REPEAT_INTERVALS ListName.hard = 1 ∧
    REPEAT_INTERVALS ListName.difficult = 5 ∧
    REPEAT_INTERVALS ListName.easy = 120 ∧
    REPEAT_INTERVALS ListName.unknown = 1 ∧
    (move_card now c from_list to_list ls).saves =
      [(ListName.hard, (move_card now c from_list to_list ls).lists.get ListName.hard),
       (ListName.difficult,
         (move_card now c from_list to_list ls).lists.get ListName.difficult),
       (ListName.easy, (move_card now c from_list to_list ls).lists.get ListName.easy),
       (ListName.unknown,
         (move_card now c from_list to_list ls).lists.get ListName.unknown)] := by
  obtain ⟨hfrom, hto, _⟩ := move_card_components now c from_list to_list ls hne
  refine ⟨?_, ?_, rfl, rfl, rfl, rfl, rfl, rfl⟩
  · rw [hfrom]
    have hlen := length_filter_add_occ c.sentence (ls.get from_list)
    omega
  · rw [hto, List.length_append, List.length_singleton]

/-- Witness for C2 (amended): moving cA from unknown to difficult in lsOne
at time 0 stamps next_review = 300 and shifts one card. -/
theorem move_card_transition_witness :
    (ListName.unknown ≠ ListName.difficult ∧
      occ cA.sentence (lsOne.get ListName.unknown) = 1) ∧
    (((move_card 0 cA ListName.unknown ListName.difficult lsOne).lists.get
          ListName.unknown).length + 1 =
        (lsOne.get ListName.unknown).length ∧
      ((move_card 0 cA ListName.unknown ListName.difficult lsOne).lists.get
          ListName.difficult).length =
        (lsOne.get ListName.difficult).length + 1 ∧
      (move_card 0 cA ListName.unknown ListName.difficult lsOne).card =
        { cA with next_review := 0 + REPEAT_INTERVALS ListName.difficult * 60 } ∧
      REPEAT_INTERVALS ListName.hard = 1 ∧
      REPEAT_INTERVALS ListName.difficult = 5 ∧
      REPEAT_INTERVALS ListName.easy = 120 ∧
      REPEAT_INTERVALS ListName.unknown = 1 ∧
      (move_card 0 cA ListName.unknown ListName.difficult lsOne).saves =
        [(ListName.hard, (move_card 0 cA ListName.unknown ListName.difficult
            lsOne).lists.get ListName.hard),
         (ListName.difficult, (move_card 0 cA ListName.unknown ListName.difficult
            lsOne).lists.get ListName.difficult),
         (ListName.easy, (move_card 0 cA ListName.unknown ListName.difficult
            lsOne).lists.get ListName.easy),
         (ListName.unknown, (move_card 0 cA ListName.unknown ListName.difficult
            lsOne).lists.get ListName.unknown)]) :=
  ⟨⟨by decide, by decide⟩,
    move_card_transition 0 cA ListName.unknown ListName.difficult lsOne
      (by decide) (by decide)⟩

/-- Claim C8 counterexample: a move into hard at current time 0 rewrites
next_review to 60, not to the current time. -/
theorem card_field_frame_counterexample :
    (move_card 0 cA ListName.unknown ListName.hard lsOne).card.next_review = 60 ∧
    (move_card 0 cA ListName.unknown ListName.hard lsOne).card.next_review ≠ 0 := by
  decide

/-- Claim C8 (amended): a move rewrites the moved card's next_review to the
current time plus the destination list's interval and touches no other
field; every card of the resulting lists is either that updated card or a
card of the original lists, unchanged; and a merge keeps every existing
card unchanged. -/
theorem card_field_frame (now : Int) (c : Card) (from_list to_list : ListName)
    (ls : Lists) (input_data : List WordGroup) :
    (move_card now c from_list to_list ls).card =
      { c with next_review := now + REPEAT_INTERVALS to_list * 60 } ∧
    (∀ w ∈ allCards (move_card now c from_list to_list ls).lists,
        w = (move_card now c from_list to_list ls).card ∨ w ∈ allCards ls) ∧
    (∀ w ∈ allCards ls, w ∈ allCards (add_new_examples_to_lists now input_data ls).1) := by
  refine ⟨rfl, ?_, ?_⟩
  · intro w hw
    have hres : (move_card now c from_list to_list ls).lists =
        (ls.set from_list
            ((ls.get from_list).filter fun w => decide (w.sentence ≠ c.sentence))).set
          to_list
          ((ls.set from_list
              ((ls.get from_list).filter fun w => decide (w.sentence ≠ c.sentence))).get
                to_list ++
            [{ c with next_review := now + REPEAT_INTERVALS to_list * 60 }]) := rfl
    rw [hres] at hw
    rcases mem_allCards_set _ _ _ hw with h1 | h1
    · rcases List.mem_append.mp h1 with h2 | h2
      · right
        rcases mem_allCards_set _ _ _ (get_subset_allCards h2) with h3 | h3
        · exact get_subset_allCards (List.mem_of_mem_filter h3)
        · exact h3
      · left
        simpa using h2
    · right
      rcases mem_allCards_set _ _ _ h1 with h2 | h2
      · exact get_subset_allCards (List.mem_of_mem_filter h2)
      · exact h2
  · intro w hw
    rw [add_new_examples_eq]
    simp only [allCards, List.mem_append] at hw ⊢
    tauto

/-- Witness for C8 (amended) at a concrete move and a concrete merge. -/
theorem card_field_frame_witness :
    (move_card 0 cA ListName.unknown ListName.hard lsOne).card =
      { cA with next_review := 0 + REPEAT_INTERVALS ListName.hard * 60 } ∧
    (∀ w ∈ allCards (move_card 0 cA ListName.unknown ListName.hard lsOne).lists,
        w = (move_card 0 cA ListName.unknown ListName.hard lsOne).card ∨
          w ∈ allCards lsOne) ∧
    (∀ w ∈ allCards lsOne,
        w ∈ allCards (add_new_examples_to_lists 0 inpA lsOne).1) :=
  card_field_frame 0 cA ListName.unknown ListName.hard lsOne inpA

/-! Preservation of the uniqueness invariant. -/

theorem unique_move (now : Int) (c : Card) (from_list to_list : ListName)
    (ls : Lists) (hu : UniqueSentences ls) (hc : c ∈ ls.get from_list) :
    UniqueSentences (move_card now c from_list to_list ls).lists := by
  rw [uniqueSentences_iff] at hu ⊢
  intro s
  have hres : (move_card now c from_list to_list ls).lists =
      (ls.set from_list
          ((ls.get from_list).filter fun w => decide (w.sentence ≠ c.sentence))).set
        to_list
        ((ls.set from_list
            ((ls.get from_list).filter fun w => decide (w.sentence ≠ c.sentence))).get
              to_list ++
          [{ c with next_review := now + REPEAT_INTERVALS to_list * 60 }]) := rfl
  rw [hres]
  have h1 := occ_allCards_set s
    (ls.set from_list
      ((ls.get from_list).filter fun w => decide (w.sentence ≠ c.sentence)))
    to_list
    ((ls.set from_list
        ((ls.get from_list).filter fun w => decide (w.sentence ≠ c.sentence))).get
          to_list ++
      [{ c with next_review := now + REPEAT_INTERVALS to_list * 60 }])
  have h2 := occ_append s
    ((ls.set from_list
        ((ls.get from_list).filter fun w => decide (w.sentence ≠ c.sentence))).get
          to_list)
    [{ c with next_review := now + REPEAT_INTERVALS to_list * 60 }]
  have h3 := occ_allCards_set s ls from_list
    ((ls.get from_list).filter fun w => decide (w.sentence ≠ c.sentence))
  have htots := hu s
  have htotc := hu c.sentence
  have hmem : 1 ≤ occ c.sentence (ls.get from_list) := one_le_occ_of_mem hc
  have hsingle : occ s [{ c with next_review := now + REPEAT_INTERVALS to_list * 60 }] =
      if c.sentence = s then 1 else 0 := occ_singleton s _
  by_cases hs : s = c.sentence
  · subst hs
    have hzero : occ c.sentence ((ls.get from_list).filter
        fun w => decide (w.sentence ≠ c.sentence)) = 0 :=
      occ_filter_self c.sentence (ls.get from_list)
    rw [if_pos rfl] at hsingle
    omega
  · have hkeep : occ s ((ls.get from_list).filter
        fun w => decide (w.sentence ≠ c.sentence)) = occ s (ls.get from_list) :=
      occ_filter_ne s c.sentence (ls.get from_list) hs
    rw [if_neg (fun hcs => hs hcs.symm)] at hsingle
    omega

theorem unique_merge (now : Int) (input_data : List WordGroup) (ls : Lists)
    (hu : UniqueSentences ls) :
    UniqueSentences (add_new_examples_to_lists now input_data ls).1 := by
  rw [add_new_examples_eq]
  have hsplit : allCards { ls with unknown := (ls.unknown ++
      specNewCards now (allTrackedSentences ls) (flattenInput input_data)) } =
      allCards ls ++
        specNewCards now (allTrackedSentences ls) (flattenInput input_data) := by
    simp [allCards]
  rw [UniqueSentences, hsplit, List.map_append]
  refine List.Nodup.append hu
    (specNewCards_nodup_not_present now (flattenInput input_data)
      (allTrackedSentences ls)).2 ?_
  intro a ha hb
  obtain ⟨w, hw, rfl⟩ := List.mem_map.mp hb
  exact (specNewCards_nodup_not_present now (flattenInput input_data)
    (allTrackedSentences ls)).1 w hw ha

/-- Claim C4: the uniqueness invariant, no sentence in more than one list,
is preserved by every state change the app performs: any merge, and any
move of a card that the app holds together with the list it sits in; in
the resulting state distinct cards always carry distinct sentences. -/
theorem unique_sentences_invariant (ls ls2 : Lists) (hu : UniqueSentences ls)
    (hstep : AppStep ls ls2) :
    UniqueSentences ls2 ∧
      ∀ c1 ∈ allCards ls2, ∀ c2 ∈ allCards ls2, c1 ≠ c2 →
        c1.sentence ≠ c2.sentence := by
  have h2 : UniqueSentences ls2 := by
    cases hstep with
    | merge now input_data ls => exact unique_merge now input_data ls hu
    | move now c from_list to_list ls hc =>
      exact unique_move now c from_list to_list ls hu hc
  refine ⟨h2, ?_⟩
  intro c1 hm1 c2 hm2 hne heq
  exact hne (List.inj_on_of_nodup_map h2 hm1 hm2 heq)

/-- Witness for C4: moving cA, held with its list unknown, to difficult in
the singleton state lsOne keeps sentences unique. -/
theorem unique_sentences_invariant_witness :
    UniqueSentences (move_card 7 cA ListName.unknown ListName.difficult lsOne).lists ∧
      ∀ c1 ∈ allCards (move_card 7 cA ListName.unknown ListName.difficult lsOne).lists,
        ∀ c2 ∈ allCards (move_card 7 cA ListName.unknown ListName.difficult
            lsOne).lists,
          c1 ≠ c2 → c1.sentence ≠ c2.sentence :=
  unique_sentences_invariant lsOne
    (move_card 7 cA ListName.unknown ListName.difficult lsOne).lists
    (by unfold UniqueSentences; decide)
    (AppStep.move 7 cA ListName.unknown ListName.difficult lsOne (by decide))

/-- Claim C1: get_next_card scans the lists in the fixed priority order
hard, difficult, easy, unknown and each list in stored order; a returned
card is due, is the first due card of its list, and every list of higher
priority has no due card at all, regardless of how overdue other cards
are; when nothing is due anywhere the none sentinel is returned. -/
theorem get_next_card_correct (now : Int) (ls : Lists) :
    (∀ c n, get_next_card now ls = some (c, n) →
        c.next_review ≤ now ∧
        (∃ l1 l2, ls.get n = l1 ++ c :: l2 ∧ ∀ w ∈ l1, ¬ w.next_review ≤ now) ∧
        (∀ m, priority m < priority n → ∀ w ∈ ls.get m, ¬ w.next_review ≤ now)) ∧
    (get_next_card now ls = none → ∀ m, ∀ w ∈ ls.get m, ¬ w.next_review ≤ now) := by
  have hnone : ∀ L : List Card,
      L.find? (fun entry => decide (entry.next_review ≤ now)) = none →
      ∀ w ∈ L, ¬ w.next_review ≤ now := by
    intro L hL w hw
    have := List.find?_eq_none.mp hL w hw
    simpa using this
  have hsome : ∀ (L : List Card) (c : Card),
      L.find? (fun entry => decide (entry.next_review ≤ now)) = some c →
      c.next_review ≤ now ∧
        ∃ l1 l2, L = l1 ++ c :: l2 ∧ ∀ w ∈ l1, ¬ w.next_review ≤ now := by
    intro L c hL
    constructor
    · have := List.find?_some hL
      simpa using this
    · obtain ⟨l1, l2, heq, hall⟩ := find?_split hL
      exact ⟨l1, l2, heq, fun w hw => by simpa using hall w hw⟩
  constructor
  · intro c n h
    cases h1 : (ls.get ListName.hard).find?
        (fun entry => decide (entry.next_review ≤ now)) with
    | some e =>
      have he : get_next_card now ls = some (e, ListName.hard) := by
        simp [get_next_card, LISTS, get_next_card_from, h1]
      rw [he] at h
      simp only [Option.some.injEq, Prod.mk.injEq] at h
      obtain ⟨rfl, rfl⟩ := h
      refine ⟨(hsome _ _ h1).1, (hsome _ _ h1).2, ?_⟩
      intro m hm
      cases m <;> simp [priority] at hm
    | none =>
      cases h2 : (ls.get ListName.difficult).find?
          (fun entry => decide (entry.next_review ≤ now)) with
      | some e =>
        have he : get_next_card now ls = some (e, ListName.difficult) := by
          simp [get_next_card, LISTS, get_next_card_from, h1, h2]
        rw [he] at h
        simp only [Option.some.injEq, Prod.mk.injEq] at h
        obtain ⟨rfl, rfl⟩ := h
        refine ⟨(hsome _ _ h2).1, (hsome _ _ h2).2, ?_⟩
        intro m hm w hw
        cases m with
        | hard => exact hnone _ h1 w hw
        | difficult => simp [priority] at hm
        | easy => simp [priority] at hm
        | unknown => simp [priority] at hm
      | none =>
        cases h3 : (ls.get ListName.easy).find?
            (fun entry => decide (entry.next_review ≤ now)) with
        | some e =>
          have he : get_next_card now ls = some (e, ListName.easy) := by
            simp [get_next_card, LISTS, get_next_card_from, h1, h2, h3]
          rw [he] at h
          simp only [Option.some.injEq, Prod.mk.injEq] at h
          obtain ⟨rfl, rfl⟩ := h
          refine ⟨(hsome _ _ h3).1, (hsome _ _ h3).2, ?_⟩
          intro m hm w hw
          cases m with
          | hard => exact hnone _ h1 w hw
          | difficult => exact hnone _ h2 w hw
          | easy => simp [priority] at hm
          | unknown => simp [priority] at hm
        | none =>
          cases h4 : (ls.get ListName.unknown).find?
              (fun entry => decide (entry.next_review ≤ now)) with
          | some e =>
            have he : get_next_card now ls = some (e, ListName.unknown) := by
              simp [get_next_card, LISTS, get_next_card_from, h1, h2, h3, h4]
            rw [he] at h
            simp only [Option.some.injEq, Prod.mk.injEq] at h
            obtain ⟨rfl, rfl⟩ := h
            refine ⟨(hsome _ _ h4).1, (hsome _ _ h4).2, ?_⟩
            intro m hm w hw
            cases m with
            | hard => exact hnone _ h1 w hw
            | difficult => exact hnone _ h2 w hw
            | easy => exact hnone _ h3 w hw
            | unknown => simp [priority] at hm
          | none =>
            have he : get_next_card now ls = none := by
              simp [get_next_card, LISTS, get_next_card_from, h1, h2, h3, h4]
            rw [he] at h
            cases h
  · intro h m w hw
    cases h1 : (ls.get ListName.hard).find?
        (fun entry => decide (entry.next_review ≤ now)) with
    | some e =>
      have he : get_next_card now ls = some (e, ListName.hard) := by
        simp [get_next_card, LISTS, get_next_card_from, h1]
      rw [h] at he
      cases he
    | none =>
      cases h2 : (ls.get ListName.difficult).find?
          (fun entry => decide (entry.next_review ≤ now)) with
      | some e =>
        have he : get_next_card now ls = some (e, ListName.difficult) := by
          simp [get_next_card, LISTS, get_next_card_from, h1, h2]
        rw [h] at he
        cases he
      | none =>
        cases h3 : (ls.get ListName.easy).find?
            (fun entry => decide (entry.next_review ≤ now)) with
        | some e =>
          have he : get_next_card now ls = some (e, ListName.easy) := by
            simp [get_next_card, LISTS, get_next_card_from, h1, h2, h3]
          rw [h] at he
          cases he
        | none =>
          cases h4 : (ls.get ListName.unknown).find?
              (fun entry => decide (entry.next_review ≤ now)) with
          | some e =>
            have he : get_next_card now ls = some (e, ListName.unknown) := by
              simp [get_next_card, LISTS, get_next_card_from, h1, h2, h3, h4]
            rw [h] at he
            cases he
          | none =>
            cases m with
            | hard => exact hnone _ h1 w hw
            | difficult => exact hnone _ h2 w hw
            | easy => exact hnone _ h3 w hw
            | unknown => exact hnone _ h4 w hw

/-- Witness for C1: at time 100 the scheduler returns the easy card of
lsSched, due for ten seconds, even though the unknown card has been due
for a whole hour; no higher-priority list holds a due card. -/
theorem get_next_card_correct_witness :
    cEasyW.next_review ≤ 100 ∧
    (∃ l1 l2, lsSched.get ListName.easy = l1 ++ cEasyW :: l2 ∧
      ∀ w ∈ l1, ¬ w.next_review ≤ 100) ∧
    (∀ m, priority m < priority ListName.easy →
      ∀ w ∈ lsSched.get m, ¬ w.next_review ≤ 100) :=
  (get_next_card_correct 100 lsSched).1 cEasyW ListName.easy (by decide)

end App
